import Mathlib

/-!
# Verification of the drive-vault-connect cross-account file mover

Shallow embedding of the `DriveService` class (file `src/services/driveService.ts`,
the version with `moveFileWithPath`/`recreateFolderPath`/`moveFilesInBatch`, plus the
variant carrying `checkStorageAndAutoMove`/`getLargestFiles`).

Modelling conventions:
* A Drive account's remote state is an `Acct`: a list of `Node`s (files and folders),
  a fresh-id counter standing for the remote service's id generator, and the list of
  permission grants `(nodeId, emailAddress)` created by permission POSTs.
* Node ids are `Nat`; the Drive `'root'` sentinel id is `rootId = 0`.
* Each REST call site is translated with the *call-site's* response handling:
  a call whose `response.ok` is checked in the source aborts the operation on a
  non-2xx answer, while a call whose `response.ok` is *not* checked in the source
  proceeds with the parsed error body, i.e. with all expected fields absent
  (JavaScript `undefined`).  Absent fields are `Option.none`; interpolating an
  absent string into a query produces the literal string `"undefined"`, exactly as
  JavaScript template literals do.
* Which remote calls answer non-2xx is given by a `Faults` record (one flag per
  call of the single-file move sequence).
* The unbounded `while` ancestor walk of `getFolderPath` is given explicit fuel;
  the fuel is irrelevant whenever the source hierarchy is acyclic (proved below).
-/

namespace DriveVault

/-- The MIME string constant the code uses to mark folders
(`application/vnd.google-apps.folder`). -/
def folderMime : String := "application/vnd.google-apps.folder"

/-- The account-root sentinel (`'root'` in the Drive API), as a `Nat` id. -/
def rootId : Nat := 0

/-- A remote node (file or folder) of one account: id, display name, MIME type,
byte content (empty for folders) and optional parent id. -/
structure Node where
  id : Nat
  name : String
  mimeType : String
  content : List Nat
  parent : Option Nat
deriving DecidableEq

/-- One account's remote state: node list, the remote id generator's next fresh id,
and the permission grants `(nodeId, email)` issued so far. -/
structure Acct where
  nodes : List Node
  nextId : Nat
  perms : List (Nat × String)
deriving DecidableEq

/-- `GET files/{id}`: fetch a node by id. -/
def lookupNode (a : Acct) (i : Nat) : Option Node :=
  a.nodes.find? (fun n => n.id == i)

/-- The list query `name='{name}' and '{parentId}' in parents`
(used by `ensureUniqueFileName`; matches files and folders alike). -/
def namedInFolder (a : Acct) (name : String) (parentId : Nat) : List Node :=
  a.nodes.filter (fun n => n.name == name && n.parent == some parentId)

/-- `findFolderByName`: the query
`name='{name}' and '{parentId}' in parents and mimeType='folder'`, taking
`data.files[0]` — the first match — or `null`. -/
def findFolderByName (a : Acct) (name : String) (parentId : Nat) : Option Nat :=
  (a.nodes.find? (fun n =>
    n.name == name && n.parent == some parentId && n.mimeType == folderMime)).map (·.id)

/-- `createFolderInParent`: POST of a folder node under `parentId`; the remote
assigns the next fresh id.  Returns `(newId, new state)`. -/
def createFolderInParent (a : Acct) (name : String) (parentId : Nat) : Nat × Acct :=
  (a.nextId,
   { a with
     nodes := a.nodes ++ [⟨a.nextId, name, folderMime, [], some parentId⟩]
     nextId := a.nextId + 1 })

/-- The multipart upload POST: creates a leaf node with the given name, MIME type
and bytes under `parentId`; the remote assigns the next fresh id. -/
def uploadNode (a : Acct) (name mime : String) (content : List Nat) (parentId : Nat) :
    Nat × Acct :=
  (a.nextId,
   { a with
     nodes := a.nodes ++ [⟨a.nextId, name, mime, content, some parentId⟩]
     nextId := a.nextId + 1 })

/-- `deleteFile`: DELETE by id.  The call is non-2xx (and the code throws
`'Failed to delete file'`) when the transport fails or the node does not exist;
otherwise the node is removed. -/
def deleteFileCall (a : Acct) (ok : Bool) (i : Nat) : Option Acct :=
  if ok && (lookupNode a i).isSome then
    some { a with nodes := a.nodes.filter (fun n => n.id != i) }
  else none

/-- JavaScript template-literal interpolation of a possibly-`undefined` string. -/
def jsStr : Option String → String
  | none => "undefined"
  | some s => s

/-- The parsed body of the `?fields=name,mimeType,parents` metadata fetch.
A non-2xx answer (whose `response.ok` the move code never checks) parses to an
error body in which all three fields are absent. -/
structure FileMeta where
  name : Option String
  mimeType : Option String
  parents : Option (List Nat)
deriving DecidableEq

/-- The metadata fetch of the move sequence.  `ok = false` (non-2xx) or a missing
node yields the error body: every field absent. -/
def getMetadata (a : Acct) (ok : Bool) (i : Nat) : FileMeta :=
  if ok then
    match lookupNode a i with
    | some n => ⟨some n.name, some n.mimeType, n.parent.map (fun p => [p])⟩
    | none => ⟨none, none, none⟩
  else ⟨none, none, none⟩

/-- The bytes `.blob()` returns for a non-2xx download answer: the serialized JSON
error body (its exact bytes are irrelevant; one fixed value). -/
def errBytes : List Nat := [123, 125]

/-- The `?alt=media` download of the move sequence (its `response.ok` is never
checked): the node's bytes on success, the error body's bytes otherwise. -/
def downloadContent (a : Acct) (ok : Bool) (i : Nat) : List Nat :=
  if ok then
    match lookupNode a i with
    | some n => n.content
    | none => errBytes
  else errBytes

/-- Name given to an uploaded node: `JSON.stringify` drops an `undefined` name
field, and the Drive API then assigns its default name. -/
def uploadName (m : FileMeta) : String := m.name.getD "Untitled"

/-- MIME type given to an uploaded node when the metadata field was absent
(the Drive API's default for an untyped upload). -/
def uploadMime (m : FileMeta) : String := m.mimeType.getD "application/octet-stream"

/-- `getFolderPath`: the ancestor `while` loop.  Starting from `cur`, prepend the
fetched name and follow `parents[0]`; stop when the parent is absent or is the
`'root'` sentinel.  A failed fetch prepends the `undefined` name and stops (its
error body has no `parents`).  The loop has no cycle protection, so the embedding
carries explicit `fuel`; exhausted fuel returns the names accumulated so far. -/
def getFolderPath (a : Acct) : Nat → Nat → List String
  | 0, _ => []
  | fuel + 1, cur =>
    match lookupNode a cur with
    | none => ["undefined"]
    | some n =>
      match n.parent with
      | none => [n.name]
      | some p => if p = rootId then [n.name] else getFolderPath a fuel p ++ [n.name]

/-- The target-materialization loop of `recreateFolderPath`: for each name,
descend into an existing child folder of that name, creating it when absent. -/
def materialize : Acct → List String → Nat → Nat × Acct
  | tgt, [], cur => (cur, tgt)
  | tgt, name :: rest, cur =>
    match findFolderByName tgt name cur with
    | some fid => materialize tgt rest fid
    | none =>
      let created := createFolderInParent tgt name cur
      materialize created.2 rest created.1

/-- `recreateFolderPath`: ancestor walk in the source, then materialization of the
same name sequence under `rootTargetFolder` in the target. -/
def recreateFolderPath (src tgt : Acct) (fuel sourceFolderId rootTargetFolder : Nat) :
    Nat × Acct :=
  materialize tgt (getFolderPath src fuel sourceFolderId) rootTargetFolder

/-- `ensureUniqueFileName`'s collision test: `true` iff the
`name='{fileName}' and '{parent}' in parents` query returns at least one node
(in which case the code throws the naming-conflict error). -/
def hasNameCollision (a : Acct) (fileName : String) (parentId : Nat) : Bool :=
  (namedInFolder a fileName parentId).length > 0

/-- The distinct failures a single-file move can surface. -/
inductive MoveErr where
  /-- `ensureValidToken` threw (credential refresh impossible). -/
  | auth
  /-- `ensureUniqueFileName` threw its naming-conflict error for this name. -/
  | nameConflict (name : String)
  /-- the upload POST answered non-2xx (`'Failed to upload file to backup account'`). -/
  | uploadFailed
  /-- the final DELETE answered non-2xx (`'Failed to delete file'`). -/
  | deleteFailed
deriving DecidableEq

/-- Which remote calls of one single-file move answer 2xx. -/
structure Faults where
  srcTokenOk : Bool
  tgtTokenOk : Bool
  metadataOk : Bool
  downloadOk : Bool
  uploadOk : Bool
  deleteOk : Bool
deriving DecidableEq

/-- Every remote call succeeds. -/
def Faults.allOk : Faults := ⟨true, true, true, true, true, true⟩

deriving instance DecidableEq for Except

/-- Outcome of a single-file move: the thrown-or-returned result together with the
final remote states of both accounts (mutations made before a throw persist). -/
structure MoveOut where
  result : Except MoveErr Unit
  src : Acct
  tgt : Acct
deriving DecidableEq

/-- The `finalTargetFolderId` computation of the move sequence:
`maintainPath && fileMetadata.parents` (an *empty* `parents` array is truthy in
JavaScript, but then `parents[0]` is `undefined`, the ancestor walk's `while`
guard is immediately false and the materialization of `[]` returns the root
unchanged — hence the `some []` case below). -/
def resolveDest (src tgt : Acct) (fuel : Nat) (meta : FileMeta)
    (targetFolderId : Nat) (maintainPath : Bool) : Nat × Acct :=
  match maintainPath, meta.parents with
  | true, some (p :: _) => recreateFolderPath src tgt fuel p targetFolderId
  | true, some [] => (targetFolderId, tgt)
  | true, none => (targetFolderId, tgt)
  | false, _ => (targetFolderId, tgt)

/-- `moveFileWithPath`: token acquisition for both accounts, metadata fetch and
download (neither checked for `response.ok`), optional path recreation, collision
check, upload (checked), delete of the source (checked, last). -/
def moveFileWithPath (src tgt : Acct) (f : Faults)
    (fuel fileId targetFolderId : Nat) (maintainPath : Bool) : MoveOut :=
  if !(f.srcTokenOk && f.tgtTokenOk) then ⟨.error .auth, src, tgt⟩ else
  let meta := getMetadata src f.metadataOk fileId
  let content := downloadContent src f.downloadOk fileId
  let dest := resolveDest src tgt fuel meta targetFolderId maintainPath
  if hasNameCollision dest.2 (jsStr meta.name) dest.1 then
    ⟨.error (.nameConflict (jsStr meta.name)), src, dest.2⟩
  else if !f.uploadOk then ⟨.error .uploadFailed, src, dest.2⟩
  else
    let up := uploadNode dest.2 (uploadName meta) (uploadMime meta) content dest.1
    match deleteFileCall src f.deleteOk fileId with
    | some src' => ⟨.ok (), src', up.2⟩
    | none => ⟨.error .deleteFailed, src, up.2⟩

/-- `shareFileToPrimary fileId`: looks up the primary account's email and POSTs a
`reader` permission on `files/{fileId}` with the *backup* account's token.  A
missing email row returns silently; a non-2xx share answer (in particular: no such
node in the backup account) is logged and swallowed. -/
def shareFileToPrimary (backup : Acct) (fileId : Nat) (primaryEmail : Option String) :
    Acct :=
  match primaryEmail with
  | none => backup
  | some email =>
    if (lookupNode backup fileId).isSome then
      { backup with perms := backup.perms ++ [(fileId, email)] }
    else backup

/-- `movePhotoWithMetadata`: same sequence as `moveFileWithPath` up to the upload,
then `shareFileToPrimary(photoId, …)` — note: called with the *source* photo id,
not with the id the upload created — then the source delete. -/
def movePhotoWithMetadata (src tgt : Acct) (f : Faults)
    (fuel photoId targetFolderId : Nat) (maintainPath : Bool)
    (primaryEmail : Option String) : MoveOut :=
  if !(f.srcTokenOk && f.tgtTokenOk) then ⟨.error .auth, src, tgt⟩ else
  let meta := getMetadata src f.metadataOk photoId
  let content := downloadContent src f.downloadOk photoId
  let dest := resolveDest src tgt fuel meta targetFolderId maintainPath
  if hasNameCollision dest.2 (jsStr meta.name) dest.1 then
    ⟨.error (.nameConflict (jsStr meta.name)), src, dest.2⟩
  else if !f.uploadOk then ⟨.error .uploadFailed, src, dest.2⟩
  else
    let up := uploadNode dest.2 (uploadName meta) (uploadMime meta) content dest.1
    let shared := shareFileToPrimary up.2 photoId primaryEmail
    match deleteFileCall src f.deleteOk photoId with
    | some src' => ⟨.ok (), src', shared⟩
    | none => ⟨.error .deleteFailed, src, shared⟩

/-- Outcome of a batch move: final account states, the file ids attempted in
order, and the arguments of the `onProgress` invocations in call order. -/
structure BatchOut where
  src : Acct
  tgt : Acct
  attempts : List Nat
  progress : List (Nat × Nat)
deriving DecidableEq

/-- The `for` loop of `moveFilesInBatch`: one `moveFileWithPath` per id (with
`maintainPath = true`), strictly in order, each threaded through the states the
previous attempt left.  `completed++` and `onProgress(completed, total)` happen
inside the `try`, after a successful move only; a throw is logged and the loop
continues. -/
def batchGo (f : Faults) (fuel targetFolderId total : Nat) :
    Acct → Acct → Nat → List Nat → BatchOut
  | src, tgt, _, [] => ⟨src, tgt, [], []⟩
  | src, tgt, completed, fid :: rest =>
    let out := moveFileWithPath src tgt f fuel fid targetFolderId true
    match out.result with
    | .ok _ =>
      let r := batchGo f fuel targetFolderId total out.src out.tgt (completed + 1) rest
      ⟨r.src, r.tgt, fid :: r.attempts, (completed + 1, total) :: r.progress⟩
    | .error _ =>
      let r := batchGo f fuel targetFolderId total out.src out.tgt completed rest
      ⟨r.src, r.tgt, fid :: r.attempts, r.progress⟩

/-- `moveFilesInBatch`: `total = fileIds.length`, `completed = 0`, then the loop. -/
def moveFilesInBatch (src tgt : Acct) (f : Faults) (fuel : Nat)
    (fileIds : List Nat) (targetFolderId : Nat) : BatchOut :=
  batchGo f fuel targetFolderId fileIds.length src tgt 0 fileIds

/-- One row of the `google_accounts` table as `selectBestBackupAccount` reads it
(the query has already filtered `account_type = 'backup'` and `status = 'active'`).
`total_storage` / `used_storage` are nullable columns; the code applies `|| 0`. -/
structure BackupAccount where
  gid : Nat
  total_storage : Option Int
  used_storage : Option Int
deriving DecidableEq

/-- `freeSpace = (total_storage || 0) - (used_storage || 0)`. -/
def freeSpace (a : BackupAccount) : Int :=
  a.total_storage.getD 0 - a.used_storage.getD 0

/-- `selectBestBackupAccount`: error on an empty candidate list; keep the
accounts of positive free space, sort them descending (the JavaScript
`sort((a,b) => b.freeSpace - a.freeSpace)`, modelled by a stable merge sort);
error when none remain; otherwise pick a random index — supplied here as `r`,
reduced modulo the tied-set size — among the accounts tying the maximum. -/
def selectBestBackupAccount (backupAccounts : List BackupAccount) (r : Nat) :
    Except String Nat :=
  if backupAccounts.isEmpty then .error "No backup accounts available"
  else
    let sorted := (backupAccounts.filter (fun a => 0 < freeSpace a)).mergeSort
      (fun a b => freeSpace b ≤ freeSpace a)
    match sorted with
    | [] => .error "No backup accounts with available storage"
    | top :: restSorted =>
      let tops := (top :: restSorted).filter (fun a => freeSpace a == freeSpace top)
      .ok ((tops.getD (r % tops.length) top).gid)

/-- A file row as `getLargestFiles` sees it (id and parsed byte size). -/
structure SizedFile where
  id : Nat
  size : Int
deriving DecidableEq

/-- `getLargestFiles` (the `checkStorageAndAutoMove` variant): the account's file
listing filtered to `size > 0`, sorted by descending size
(`sort((a,b) => b.size - a.size)`), first `limit` entries. -/
def getLargestFiles (files : List SizedFile) (limit : Nat) : List SizedFile :=
  ((files.filter (fun f => 0 < f.size)).mergeSort (fun a b => b.size ≤ a.size)).take limit

/-- `checkStorageAndAutoMove` over the primary's quota row and file listing.
The code compares `freeSpace < total * 0.1`; the threshold is modelled as the
exact rational `total / 10`, i.e. `10 * freeSpace < total` over `Int`.  Below the
threshold it walks the top-5 largest files and calls
`moveFileToBackup(file.id, primary, undefined, maintainPath := true)` on each
inside a `try/catch` that swallows the failure; the per-move outcome is abstracted
by the oracle `ok`.  Returned trace: one `(fileId, maintainPath, outcome)` triple
per attempted move. -/
def checkStorageAndAutoMove (total used : Option Int) (files : List SizedFile)
    (ok : Nat → Bool) : List (Nat × Bool × Bool) :=
  let free := total.getD 0 - used.getD 0
  if 10 * free < total.getD 0 then
    (getLargestFiles files 5).map (fun fi => (fi.id, true, ok fi.id))
  else []

/-- The node's parent reference, when present, is below `k`. -/
def Node.parentLt (n : Node) (k : Nat) : Bool :=
  match n.parent with
  | none => true
  | some p => p < k

/-- Remote-state sanity: every node id and every parent reference is below the id
generator's next fresh id (so freshly generated ids are genuinely new). -/
def FreshAcct (a : Acct) : Prop :=
  ∀ n ∈ a.nodes, n.id < a.nextId ∧ n.parentLt a.nextId = true

instance (a : Acct) : Decidable (FreshAcct a) :=
  inferInstanceAs (Decidable (∀ n ∈ a.nodes, _ ∧ _))

/-- No node of `a` has `i` as its parent. -/
def Childless (a : Acct) (i : Nat) : Prop :=
  ∀ n ∈ a.nodes, n.parent ≠ some i

instance (a : Acct) (i : Nat) : Decidable (Childless a i) :=
  inferInstanceAs (Decidable (∀ n ∈ a.nodes, _))

/-- `chainB a root names leaf`: the target store `a` holds a descending chain of
folders carrying exactly the names `names`, starting under `root` and ending at
`leaf` (for `names = []`, `leaf` is `root` itself). -/
def chainB (a : Acct) : Nat → List String → Nat → Bool
  | root, [], leaf => root == leaf
  | root, name :: rest, leaf =>
    a.nodes.any (fun f =>
      f.name == name && f.parent == some root && f.mimeType == folderMime &&
        chainB a f.id rest leaf)

/-- `Ancestors a i names`: starting at folder id `i`, the parent chain in `a` is
finite and acyclic, stops at an absent parent or at the `'root'` sentinel, and
reads off the names `names` in root-to-leaf order (so the starting folder's own
name is last). -/
inductive Ancestors (a : Acct) : Nat → List String → Prop where
  | stop : ∀ i n, lookupNode a i = some n →
      (n.parent = none ∨ n.parent = some rootId) → Ancestors a i [n.name]
  | step : ∀ i n p names, lookupNode a i = some n → n.parent = some p →
      p ≠ rootId → Ancestors a p names → Ancestors a i (names ++ [n.name])

/-- A one-node store whose node is its own parent: the pathological hierarchy the
ancestor walk has no guard against. -/
def cycAcct : Acct :=
  ⟨[⟨1, "loop", folderMime, [], some 1⟩], 2, []⟩

/-- Concrete source account: a `Docs` folder at the account root holding
`a.txt` and `b.txt`. -/
def cSrc : Acct :=
  ⟨[⟨1, "Docs", folderMime, [], some 0⟩,
    ⟨2, "a.txt", "text/plain", [10, 20], some 1⟩,
    ⟨3, "b.txt", "text/plain", [30], some 1⟩], 10, []⟩

/-- Concrete target account: the shared root `20` holding an empty `Docs` folder. -/
def cTgt : Acct :=
  ⟨[⟨20, "Shared", folderMime, [], none⟩,
    ⟨21, "Docs", folderMime, [], some 20⟩], 30, []⟩

/-- Concrete target account whose `Docs` folder already holds an `a.txt`. -/
def cTgtColl : Acct :=
  ⟨[⟨20, "Shared", folderMime, [], none⟩,
    ⟨21, "Docs", folderMime, [], some 20⟩,
    ⟨22, "a.txt", "text/plain", [7], some 21⟩], 30, []⟩

/-- Concrete source account holding a `Photos` folder with one photo. -/
def cSrcPhoto : Acct :=
  ⟨[⟨1, "Photos", folderMime, [], some 0⟩,
    ⟨2, "photo.jpg", "image/jpeg", [9, 9], some 1⟩], 10, []⟩

/-- Concrete source account with a two-level folder chain
`Projects/Docs` holding one file. -/
def cSrcDeep : Acct :=
  ⟨[⟨1, "Projects", folderMime, [], some 0⟩,
    ⟨2, "Docs", folderMime, [], some 1⟩,
    ⟨3, "c.txt", "text/plain", [1], some 2⟩], 10, []⟩

/-! ## Lemmas about the batch loop -/

/-- Every file id of the input list is attempted, in input order, whatever the
per-file outcomes are. -/
theorem batchGo_attempts (f : Faults) (fuel t T : Nat) :
    ∀ (ids : List Nat) (s g : Acct) (c : Nat),
      (batchGo f fuel t T s g c ids).attempts = ids := by
  intro ids
  induction ids with
  | nil => intro s g c; simp [batchGo]
  | cons fid rest ih =>
    intro s g c
    cases h : (moveFileWithPath s g f fuel fid t true).result with
    | ok u => simp [batchGo, h, ih]
    | error e => simp [batchGo, h, ih]

/-- The final account states of the loop do not depend on the `total` and
`completed` counters (those only feed the progress callback). -/
theorem batchGo_states_eq (f : Faults) (fuel t : Nat) :
    ∀ (ids : List Nat) (s g : Acct) (T c T' c' : Nat),
      (batchGo f fuel t T s g c ids).src = (batchGo f fuel t T' s g c' ids).src ∧
      (batchGo f fuel t T s g c ids).tgt = (batchGo f fuel t T' s g c' ids).tgt := by
  intro ids
  induction ids with
  | nil => intro s g T c T' c'; simp [batchGo]
  | cons fid rest ih =>
    intro s g T c T' c'
    cases h : (moveFileWithPath s g f fuel fid t true).result with
    | ok u => simpa [batchGo, h] using ih _ _ T (c + 1) T' (c' + 1)
    | error e => simpa [batchGo, h] using ih _ _ T c T' c'

/-- Splitting the loop: the files after a prefix run against exactly the account
states the prefix left behind. -/
theorem batchGo_append (f : Faults) (fuel t T : Nat) :
    ∀ (xs ys : List Nat) (s g : Acct) (c : Nat),
      (batchGo f fuel t T s g c (xs ++ ys)).src =
        (batchGo f fuel t T (batchGo f fuel t T s g c xs).src
          (batchGo f fuel t T s g c xs).tgt 0 ys).src ∧
      (batchGo f fuel t T s g c (xs ++ ys)).tgt =
        (batchGo f fuel t T (batchGo f fuel t T s g c xs).src
          (batchGo f fuel t T s g c xs).tgt 0 ys).tgt := by
  intro xs
  induction xs with
  | nil =>
    intro ys s g c
    simpa [batchGo] using batchGo_states_eq f fuel t ys s g T c T 0
  | cons fid rest ih =>
    intro ys s g c
    cases h : (moveFileWithPath s g f fuel fid t true).result with
    | ok u => simpa [batchGo, h] using ih ys _ _ (c + 1)
    | error e => simpa [batchGo, h] using ih ys _ _ c

/-- The progress-callback trace: one entry per *successful* move, carrying the
completed counts `c+1, c+2, …` in order, each paired with `total`; its length
never exceeds the number of ids. -/
theorem batchGo_progress (f : Faults) (fuel t T : Nat) :
    ∀ (ids : List Nat) (s g : Acct) (c : Nat),
      (batchGo f fuel t T s g c ids).progress =
        (List.range' (c + 1) (batchGo f fuel t T s g c ids).progress.length).map
          (fun k => (k, T)) ∧
      (batchGo f fuel t T s g c ids).progress.length ≤ ids.length := by
  intro ids
  induction ids with
  | nil => intro s g c; simp [batchGo]
  | cons fid rest ih =>
    intro s g c
    cases h : (moveFileWithPath s g f fuel fid t true).result with
    | ok u =>
      have := ih (moveFileWithPath s g f fuel fid t true).src
        (moveFileWithPath s g f fuel fid t true).tgt (c + 1)
      refine ⟨?_, ?_⟩
      · simp only [batchGo, h, List.length_cons, List.range'_succ, List.map_cons]
        exact congrArg (List.cons _) (by simpa [Nat.add_assoc, Nat.add_comm 1 1] using this.1)
      · simpa [batchGo, h] using this.2
    | error e =>
      have := ih (moveFileWithPath s g f fuel fid t true).src
        (moveFileWithPath s g f fuel fid t true).tgt c
      refine ⟨?_, ?_⟩
      · simpa [batchGo, h] using this.1
      · simp only [batchGo, h]
        exact le_trans this.2 (Nat.le_succ _)

/-! ## Lemmas about target-path materialization -/

theorem parentLt_iff (n : Node) (k : Nat) :
    n.parentLt k = true ↔ ∀ p, n.parent = some p → p < k := by
  cases h : n.parent <;> simp [Node.parentLt, h]

theorem parentLt_mono {n : Node} {k m : Nat} (h : n.parentLt k = true) (hkm : k ≤ m) :
    n.parentLt m = true := by
  rw [parentLt_iff] at h ⊢
  exact fun p hp => lt_of_lt_of_le (h p hp) hkm

/-- A folder create preserves the freshness invariant. -/
theorem create_fresh {tgt : Acct} {cur : Nat} (name : String)
    (hf : FreshAcct tgt) (hc : cur < tgt.nextId) :
    FreshAcct (createFolderInParent tgt name cur).2 := by
  intro n hn
  simp only [createFolderInParent, List.mem_append, List.mem_singleton] at hn
  rcases hn with hn | hn
  · obtain ⟨h1, h2⟩ := hf n hn
    refine ⟨?_, ?_⟩
    · simp only [createFolderInParent]
      exact Nat.lt_succ_of_lt h1
    · simp only [createFolderInParent]
      exact parentLt_mono h2 (Nat.le_succ _)
  · subst hn
    refine ⟨?_, ?_⟩
    · simp only [createFolderInParent]
      exact Nat.lt_succ_self _
    · simp only [createFolderInParent]
      rw [parentLt_iff]
      intro p hp
      simp only [Option.some.injEq] at hp
      omega

/-- A freshly created folder has no children. -/
theorem create_childless {tgt : Acct} {cur : Nat} (name : String)
    (hf : FreshAcct tgt) (hc : cur < tgt.nextId) :
    Childless (createFolderInParent tgt name cur).2 (createFolderInParent tgt name cur).1 := by
  intro n hn
  simp only [createFolderInParent, List.mem_append, List.mem_singleton] at hn
  rcases hn with hn | hn
  · obtain ⟨-, h2⟩ := hf n hn
    rw [parentLt_iff] at h2
    intro hp
    exact absurd (h2 _ hp) (lt_irrefl _)
  · subst hn
    simp only [createFolderInParent, ne_eq, Option.some.injEq]
    omega

/-- A childless folder yields no `findFolderByName` hit. -/
theorem findFolderByName_none_of_childless {a : Acct} {cur : Nat}
    (h : Childless a cur) (name : String) :
    findFolderByName a name cur = none := by
  unfold findFolderByName
  rw [Option.map_eq_none', List.find?_eq_none]
  intro x hx
  simp only [Bool.and_eq_true, beq_iff_eq, not_and]
  intro hcl
  exact absurd hcl.2 (h x hx)

/-- Materialization only appends nodes, and every appended node is a folder. -/
theorem materialize_nodes (names : List String) :
    ∀ (tgt : Acct) (cur : Nat), ∃ ext,
      (materialize tgt names cur).2.nodes = tgt.nodes ++ ext ∧
      ∀ n ∈ ext, n.mimeType = folderMime := by
  induction names with
  | nil => intro tgt cur; exact ⟨[], by simp [materialize], by simp⟩
  | cons name rest ih =>
    intro tgt cur
    cases h : findFolderByName tgt name cur with
    | some fid =>
      obtain ⟨ext, he, hm⟩ := ih tgt fid
      exact ⟨ext, by simp only [materialize, h]; exact he, hm⟩
    | none =>
      obtain ⟨ext, he, hm⟩ := ih (createFolderInParent tgt name cur).2
        (createFolderInParent tgt name cur).1
      refine ⟨⟨tgt.nextId, name, folderMime, [], some cur⟩ :: ext, ?_, ?_⟩
      · simp only [materialize, h]
        rw [he]
        simp [createFolderInParent]
      · intro n hn
        rcases List.mem_cons.mp hn with hn | hn
        · subst hn; rfl
        · exact hm n hn

/-- If the walk starts at a childless folder, the resulting leaf is childless
(every remaining segment is created, each fresh folder being empty). -/
theorem materialize_childless (names : List String) :
    ∀ (tgt : Acct) (cur : Nat), FreshAcct tgt → cur < tgt.nextId → Childless tgt cur →
      Childless (materialize tgt names cur).2 (materialize tgt names cur).1 := by
  induction names with
  | nil => intro tgt cur _ _ hch; simpa [materialize] using hch
  | cons name rest ih =>
    intro tgt cur hf hc hch
    have hfind := findFolderByName_none_of_childless hch name
    simp only [materialize, hfind]
    exact ih _ _ (create_fresh name hf hc)
      (by simp [createFolderInParent]) (create_childless name hf hc)

/-- Either materialization reused every segment (the target store is unchanged),
or its leaf is a freshly created, childless folder. -/
theorem materialize_eq_or_childless (names : List String) :
    ∀ (tgt : Acct) (cur : Nat), FreshAcct tgt → cur < tgt.nextId →
      (materialize tgt names cur).2 = tgt ∨
      Childless (materialize tgt names cur).2 (materialize tgt names cur).1 := by
  induction names with
  | nil => intro tgt cur _ _; left; simp [materialize]
  | cons name rest ih =>
    intro tgt cur hf hc
    cases h : findFolderByName tgt name cur with
    | some fid =>
      obtain ⟨g, hg, hgid⟩ := Option.map_eq_some'.mp h
      have hmem := List.mem_of_find?_eq_some hg
      simp only [materialize, h]
      exact ih tgt fid hf (hgid ▸ (hf g hmem).1)
    | none =>
      right
      simp only [materialize, h]
      exact materialize_childless rest _ _ (create_fresh name hf hc)
        (by simp [createFolderInParent]) (create_childless name hf hc)

/-- Re-running materialization on its own output store finds every segment and
changes nothing: same leaf id, same store. -/
theorem materialize_rerun (names : List String) :
    ∀ (tgt : Acct) (cur : Nat), FreshAcct tgt → cur < tgt.nextId →
      materialize (materialize tgt names cur).2 names cur = materialize tgt names cur := by
  induction names with
  | nil => intro tgt cur _ _; simp [materialize]
  | cons name rest ih =>
    intro tgt cur hf hc
    cases h : findFolderByName tgt name cur with
    | some fid =>
      obtain ⟨g, hg, hgid⟩ := Option.map_eq_some'.mp h
      obtain ⟨ext, hext, -⟩ := materialize_nodes rest tgt fid
      have hfind2 : findFolderByName (materialize tgt rest fid).2 name cur = some fid := by
        unfold findFolderByName
        rw [hext, List.find?_append, hg]
        simp [hgid]
      simp only [materialize, h, hfind2]
      exact ih tgt fid hf (hgid ▸ (hf g (List.mem_of_find?_eq_some hg)).1)
    | none =>
      have hfnone : List.find? (fun n =>
          n.name == name && n.parent == some cur && n.mimeType == folderMime)
          tgt.nodes = none := Option.map_eq_none'.mp h
      obtain ⟨ext, hext, -⟩ := materialize_nodes rest
        (createFolderInParent tgt name cur).2 (createFolderInParent tgt name cur).1
      have hfind2 : findFolderByName
          (materialize (createFolderInParent tgt name cur).2 rest
            (createFolderInParent tgt name cur).1).2 name cur = some tgt.nextId := by
        unfold findFolderByName
        rw [hext]
        simp only [createFolderInParent, List.append_assoc, List.find?_append, hfnone,
          Option.none_or, List.cons_append, List.find?_cons]
        simp
      simp only [materialize, h, hfind2]
      exact ih _ _ (create_fresh name hf hc) (by simp [createFolderInParent])

/-- Materialization builds (or finds) in its output store a folder chain carrying
exactly the requested names, from the root to the returned leaf. -/
theorem materialize_chain (names : List String) :
    ∀ (tgt : Acct) (cur : Nat), FreshAcct tgt → cur < tgt.nextId →
      chainB (materialize tgt names cur).2 cur names (materialize tgt names cur).1 = true := by
  induction names with
  | nil => intro tgt cur _ _; simp [materialize, chainB]
  | cons name rest ih =>
    intro tgt cur hf hc
    cases h : findFolderByName tgt name cur with
    | some fid =>
      obtain ⟨g, hg, hgid⟩ := Option.map_eq_some'.mp h
      have hmem := List.mem_of_find?_eq_some hg
      have hpred := List.find?_some hg
      obtain ⟨ext, hext, -⟩ := materialize_nodes rest tgt fid
      have hchain := ih tgt fid hf (hgid ▸ (hf g hmem).1)
      simp only [materialize, h]
      simp only [chainB, List.any_eq_true]
      refine ⟨g, ?_, ?_⟩
      · rw [hext]; exact List.mem_append_left _ hmem
      · simp only [Bool.and_eq_true] at hpred ⊢
        exact ⟨⟨⟨hpred.1.1, hpred.1.2⟩, hpred.2⟩, hgid ▸ hchain⟩
    | none =>
      obtain ⟨ext, hext, -⟩ := materialize_nodes rest
        (createFolderInParent tgt name cur).2 (createFolderInParent tgt name cur).1
      have hchain := ih (createFolderInParent tgt name cur).2
        (createFolderInParent tgt name cur).1
        (create_fresh name hf hc) (by simp [createFolderInParent])
      simp only [materialize, h]
      simp only [chainB, List.any_eq_true]
      refine ⟨⟨tgt.nextId, name, folderMime, [], some cur⟩, ?_, ?_⟩
      · rw [hext]
        simp [createFolderInParent]
      · simp only [Bool.and_eq_true]
        refine ⟨⟨⟨?_, ?_⟩, ?_⟩, hchain⟩ <;> simp

/-! ## Claim theorems about the batch loop -/

/-- **C6**: `moveFilesInBatch` attempts every file id of the input list, strictly
in input-array order, each move running against exactly the account states the
previous attempts left behind (so a failure of any file — which leaves its states
and continues — does not prevent the later files from being moved): the batch
over `xs ++ ys` attempts `xs ++ ys`, and its final states are those of running
the batch over `ys` from the states of the batch over `xs`. -/
theorem moveFilesInBatch_sequential_all_attempted (src tgt : Acct) (f : Faults)
    (fuel targetFolderId : Nat) (xs ys : List Nat) :
    (moveFilesInBatch src tgt f fuel (xs ++ ys) targetFolderId).attempts = xs ++ ys ∧
    (moveFilesInBatch src tgt f fuel (xs ++ ys) targetFolderId).src =
      (moveFilesInBatch (moveFilesInBatch src tgt f fuel xs targetFolderId).src
        (moveFilesInBatch src tgt f fuel xs targetFolderId).tgt f fuel ys
        targetFolderId).src ∧
    (moveFilesInBatch src tgt f fuel (xs ++ ys) targetFolderId).tgt =
      (moveFilesInBatch (moveFilesInBatch src tgt f fuel xs targetFolderId).src
        (moveFilesInBatch src tgt f fuel xs targetFolderId).tgt f fuel ys
        targetFolderId).tgt := by
  unfold moveFilesInBatch
  refine ⟨batchGo_attempts _ _ _ _ _ _ _ _, ?_, ?_⟩
  · have h1 := (batchGo_append f fuel targetFolderId (xs ++ ys).length xs ys src tgt 0).1
    have h2 := batchGo_states_eq f fuel targetFolderId xs src tgt
      (xs ++ ys).length 0 xs.length 0
    rw [h1, h2.1, h2.2]
    exact (batchGo_states_eq f fuel targetFolderId ys _ _
      (xs ++ ys).length 0 ys.length 0).1
  · have h1 := (batchGo_append f fuel targetFolderId (xs ++ ys).length xs ys src tgt 0).2
    have h2 := batchGo_states_eq f fuel targetFolderId xs src tgt
      (xs ++ ys).length 0 xs.length 0
    rw [h1, h2.1, h2.2]
    exact (batchGo_states_eq f fuel targetFolderId ys _ _
      (xs ++ ys).length 0 ys.length 0).2

/-- **C4** counterexample: a batch of `N = 2` files in which the second collides at
the destination invokes `onProgress` only once, not `N = 2` times — `completed++`
and the `onProgress` call sit inside the `try`, *after* `moveFileWithPath`, so a
failed file produces no progress callback at all. -/
theorem moveFilesInBatch_progress_missing_on_failure :
    (moveFilesInBatch cSrc cTgtColl Faults.allOk 5 [3, 2] 20).attempts = [3, 2] ∧
    (moveFilesInBatch cSrc cTgtColl Faults.allOk 5 [3, 2] 20).progress = [(1, 2)] := by
  decide

/-- **C4** (amended): over `N` file ids, `onProgress` is invoked once per
*successful* move only — `S ≤ N` times in total, with the monotonically increasing
completed-counts `1, 2, …, S` and second argument `N`; failed files trigger no
callback. -/
theorem moveFilesInBatch_progress_per_success (src tgt : Acct) (f : Faults)
    (fuel : Nat) (fileIds : List Nat) (targetFolderId : Nat) :
    (moveFilesInBatch src tgt f fuel fileIds targetFolderId).progress =
      (List.range' 1
        (moveFilesInBatch src tgt f fuel fileIds targetFolderId).progress.length).map
        (fun k => (k, fileIds.length)) ∧
    (moveFilesInBatch src tgt f fuel fileIds targetFolderId).progress.length ≤
      fileIds.length := by
  simpa [moveFilesInBatch] using
    batchGo_progress f fuel targetFolderId fileIds.length fileIds src tgt 0

/-! ## Claim theorems about unchecked responses and the photo share -/

/-- **C3**: evaluation at the failing inputs.  When the metadata fetch answers
non-2xx (its `response.ok` is never checked), `moveFileWithPath` does *not*
abort: it runs to the end, reports success, uploads a node built from the error
body, and — decisively — deletes the source file; likewise a non-2xx download
(also unchecked) leads to a "successful" move that uploads the error body's
bytes under the real name and deletes the source.  Both contradict the claim
that every pre-delete failure aborts with the source left untouched. -/
theorem moveFileWithPath_metadata_fault_deletes_source :
    ((moveFileWithPath cSrc cTgt ⟨true, true, false, true, true, true⟩ 5 2 20 true).result =
        .ok () ∧
      lookupNode (moveFileWithPath cSrc cTgt ⟨true, true, false, true, true, true⟩
        5 2 20 true).src 2 = none ∧
      (moveFileWithPath cSrc cTgt ⟨true, true, false, true, true, true⟩
        5 2 20 true).tgt.nodes.length = cTgt.nodes.length + 1) ∧
    ((moveFileWithPath cSrc cTgt ⟨true, true, true, false, true, true⟩ 5 2 20 true).result =
        .ok () ∧
      lookupNode (moveFileWithPath cSrc cTgt ⟨true, true, true, false, true, true⟩
        5 2 20 true).src 2 = none ∧
      (moveFileWithPath cSrc cTgt ⟨true, true, true, false, true, true⟩
        5 2 20 true).tgt.nodes.any
        (fun n => n.name == "a.txt" && n.content == errBytes) = true) := by
  decide

/-- **C7**: evaluation at the failing input.  A fully successful
`movePhotoWithMetadata` run grants no permission at all on the uploaded node:
`shareFileToPrimary` is called with the *source* photo id (the upload response's
id is never read), that id does not exist in the target account, and the failed
permissions POST is swallowed — the target's permission list stays empty even
though the upload created the node and the primary email was available. -/
theorem movePhotoWithMetadata_share_misses_uploaded_node :
    (movePhotoWithMetadata cSrcPhoto cTgt Faults.allOk 5 2 20 true
      (some "primary@example.com")).result = .ok () ∧
    (movePhotoWithMetadata cSrcPhoto cTgt Faults.allOk 5 2 20 true
      (some "primary@example.com")).tgt.nodes.any
        (fun n => n.name == "photo.jpg" && n.mimeType == "image/jpeg") = true ∧
    (movePhotoWithMetadata cSrcPhoto cTgt Faults.allOk 5 2 20 true
      (some "primary@example.com")).tgt.perms = [] := by
  decide

/-! ## Claim theorems about collisions and path recreation -/

/-- A positive collision check exhibits a node with that name under that parent. -/
theorem exists_of_collision {a : Acct} {nm : String} {pid : Nat}
    (h : hasNameCollision a nm pid = true) :
    ∃ m ∈ a.nodes, m.name = nm ∧ m.parent = some pid := by
  have hlen : 0 < (namedInFolder a nm pid).length := of_decide_eq_true h
  obtain ⟨m, hm⟩ := List.exists_mem_of_ne_nil _ (List.length_pos.mp hlen)
  have hmf := List.mem_filter.mp hm
  refine ⟨m, hmf.1, ?_⟩
  have hp := hmf.2
  simp only [Bool.and_eq_true, beq_iff_eq] at hp
  exact hp

/-- **C1**: whenever the resolved destination folder already holds a node with the
file's (interpolated) name, `moveFileWithPath` throws exactly the naming-conflict
error and leaves *both* accounts exactly as they were — in particular the target
gains no folder: a collision is only possible when the leaf was found rather than
created, and a found leaf means every path segment was reused. -/
theorem moveFileWithPath_conflict_no_mutation (src tgt : Acct) (f : Faults)
    (fuel fileId targetFolderId : Nat) (maintainPath : Bool)
    (hs : f.srcTokenOk = true) (ht : f.tgtTokenOk = true)
    (hfresh : FreshAcct tgt) (hroot : targetFolderId < tgt.nextId)
    (hcoll : hasNameCollision
      (resolveDest src tgt fuel (getMetadata src f.metadataOk fileId)
        targetFolderId maintainPath).2
      (jsStr (getMetadata src f.metadataOk fileId).name)
      (resolveDest src tgt fuel (getMetadata src f.metadataOk fileId)
        targetFolderId maintainPath).1 = true) :
    moveFileWithPath src tgt f fuel fileId targetFolderId maintainPath =
      ⟨.error (.nameConflict (jsStr (getMetadata src f.metadataOk fileId).name)),
        src, tgt⟩ := by
  have hdest : (resolveDest src tgt fuel (getMetadata src f.metadataOk fileId)
      targetFolderId maintainPath).2 = tgt := by
    cases maintainPath with
    | false => rfl
    | true =>
      cases hpar : (getMetadata src f.metadataOk fileId).parents with
      | none => simp [resolveDest, hpar]
      | some l =>
        cases l with
        | nil => simp [resolveDest, hpar]
        | cons p ps =>
          rcases materialize_eq_or_childless (getFolderPath src fuel p) tgt
            targetFolderId hfresh hroot with he | hch
          · simpa [resolveDest, recreateFolderPath, hpar] using he
          · exfalso
            simp only [resolveDest, recreateFolderPath, hpar] at hcoll
            obtain ⟨m, hmem, -, hp⟩ := exists_of_collision hcoll
            exact hch m hmem hp
  rw [hdest] at hcoll
  simp only [moveFileWithPath, hs, ht, Bool.and_self, Bool.not_true,
    Bool.false_eq_true, if_false, hdest, hcoll, if_true]

/-- Under an acyclic ancestor chain, the walk computes exactly the chain's names,
for any fuel at least the chain length. -/
theorem getFolderPath_of_ancestors {a : Acct} {i : Nat} {names : List String}
    (h : Ancestors a i names) :
    ∀ fuel, names.length ≤ fuel → getFolderPath a fuel i = names := by
  induction h with
  | stop i n hl hpar =>
    intro fuel hfuel
    cases fuel with
    | zero => exfalso; simp only [List.length_singleton] at hfuel; omega
    | succ k => rcases hpar with hp | hp <;> simp [getFolderPath, hl, hp]
  | step i n p names hl hpar hne hanc ih =>
    intro fuel hfuel
    cases fuel with
    | zero =>
      exfalso
      simp only [List.length_append, List.length_singleton] at hfuel
      omega
    | succ k =>
      have hk : names.length ≤ k := by
        simp only [List.length_append, List.length_singleton] at hfuel
        omega
      simp [getFolderPath, hl, hpar, hne, ih k hk]

/-- **C10**: for a finite acyclic parent chain the ancestor walk terminates
(its value is the chain's names, root-to-leaf, independent of any sufficient
fuel) and ends with the starting folder's own name; and the walk has no cycle
guard or depth cutoff: on a self-parenting folder it consumes *all* fuel,
producing one name per unit of fuel. -/
theorem getFolderPath_terminates_on_acyclic (a : Acct) (i : Nat) (names : List String)
    (h : Ancestors a i names) :
    (∀ fuel, names.length ≤ fuel → getFolderPath a fuel i = names) ∧
    (∃ n, lookupNode a i = some n ∧ names.getLast? = some n.name) ∧
    (∀ fuel, getFolderPath cycAcct fuel 1 = List.replicate fuel "loop") := by
  refine ⟨getFolderPath_of_ancestors h, ?_, ?_⟩
  · cases h with
    | stop i n hl hpar => exact ⟨n, hl, rfl⟩
    | step i n p names hl hpar hne hanc => exact ⟨n, hl, List.getLast?_concat _⟩
  · intro fuel
    induction fuel with
    | zero => rfl
    | succ k ihk =>
      rw [List.replicate_succ']
      simpa [getFolderPath, cycAcct, lookupNode, rootId] using ihk

/-- **C5**: under an acyclic source ancestor chain (and a sane target store),
`recreateFolderPath` resolves a destination leaf reachable from the target root
through folders named exactly like the source chain, root-to-leaf; and running it
a second time against the unchanged target returns the same leaf id with the
store exactly unchanged — every segment is reused, no duplicate folder is
created. -/
theorem recreateFolderPath_chain_and_idempotent (src tgt : Acct)
    (folderId rootTarget fuel : Nat) (names : List String)
    (hanc : Ancestors src folderId names) (hfuel : names.length ≤ fuel)
    (hfresh : FreshAcct tgt) (hroot : rootTarget < tgt.nextId) :
    chainB (recreateFolderPath src tgt fuel folderId rootTarget).2 rootTarget names
      (recreateFolderPath src tgt fuel folderId rootTarget).1 = true ∧
    recreateFolderPath src (recreateFolderPath src tgt fuel folderId rootTarget).2
      fuel folderId rootTarget =
      recreateFolderPath src tgt fuel folderId rootTarget := by
  have hp := getFolderPath_of_ancestors hanc fuel hfuel
  unfold recreateFolderPath
  rw [hp]
  exact ⟨materialize_chain names tgt rootTarget hfresh hroot,
    materialize_rerun names tgt rootTarget hfresh hroot⟩

/-- Witness for the collision theorem: moving `a.txt` into a target whose `Docs`
folder already holds an `a.txt` throws the naming conflict and mutates nothing. -/
theorem moveFileWithPath_conflict_no_mutation_witness :
    (FreshAcct cTgtColl ∧ 20 < cTgtColl.nextId ∧
      hasNameCollision
        (resolveDest cSrc cTgtColl 5 (getMetadata cSrc Faults.allOk.metadataOk 2) 20 true).2
        (jsStr (getMetadata cSrc Faults.allOk.metadataOk 2).name)
        (resolveDest cSrc cTgtColl 5 (getMetadata cSrc Faults.allOk.metadataOk 2)
          20 true).1 = true) ∧
    moveFileWithPath cSrc cTgtColl Faults.allOk 5 2 20 true =
      ⟨.error (.nameConflict "a.txt"), cSrc, cTgtColl⟩ :=
  ⟨⟨by decide, by decide, by decide⟩,
    (moveFileWithPath_conflict_no_mutation cSrc cTgtColl Faults.allOk 5 2 20 true
      rfl rfl (by decide) (by decide) (by decide)).trans (by decide)⟩

/-- Witness for the ancestor-walk theorem, on the concrete one-level chain. -/
theorem getFolderPath_terminates_on_acyclic_witness :
    getFolderPath cSrc 5 1 = ["Docs"] ∧
    getFolderPath cycAcct 3 1 = ["loop", "loop", "loop"] := by
  have H := getFolderPath_terminates_on_acyclic cSrc 1 ["Docs"]
    (Ancestors.stop 1 ⟨1, "Docs", folderMime, [], some 0⟩ (by decide) (Or.inr rfl))
  exact ⟨H.1 5 (by decide), (H.2.2 3).trans (by decide)⟩

/-- Witness for the path-recreation theorem: recreating `Projects/Docs` in a
target that lacks both folders builds the chain once and is idempotent. -/
theorem recreateFolderPath_chain_and_idempotent_witness :
    chainB (recreateFolderPath cSrcDeep cTgt 5 2 20).2 20 ["Projects", "Docs"]
      (recreateFolderPath cSrcDeep cTgt 5 2 20).1 = true ∧
    recreateFolderPath cSrcDeep (recreateFolderPath cSrcDeep cTgt 5 2 20).2 5 2 20 =
      recreateFolderPath cSrcDeep cTgt 5 2 20 :=
  recreateFolderPath_chain_and_idempotent cSrcDeep cTgt 2 20 5 ["Projects", "Docs"]
    (Ancestors.step 2 ⟨2, "Docs", folderMime, [], some 1⟩ 1 ["Projects"]
      (by decide) rfl (by decide)
      (Ancestors.stop 1 ⟨1, "Projects", folderMime, [], some 0⟩ (by decide) (Or.inr rfl)))
    (by decide) (by decide) (by decide)

/-! ## Claim theorem for the successful single-file move -/

/-- Materialization leaves the count of non-folder-matching nodes unchanged
(it only ever appends folders). -/
theorem countP_materialize (p : Node → Bool)
    (hp : ∀ n, n.mimeType = folderMime → p n = false)
    (names : List String) (tgt : Acct) (cur : Nat) :
    (materialize tgt names cur).2.nodes.countP p = tgt.nodes.countP p := by
  obtain ⟨ext, hext, hm⟩ := materialize_nodes names tgt cur
  rw [hext, List.countP_append]
  have hz : ext.countP p = 0 :=
    List.countP_eq_zero.mpr (fun n hn => by simp [hp n (hm n hn)])
  omega

/-- Destination resolution leaves the count of non-folder-matching nodes
unchanged, whatever branch it takes. -/
theorem countP_resolveDest (p : Node → Bool)
    (hp : ∀ n, n.mimeType = folderMime → p n = false)
    (src tgt : Acct) (fuel : Nat) (meta : FileMeta) (tf : Nat) (mp : Bool) :
    (resolveDest src tgt fuel meta tf mp).2.nodes.countP p = tgt.nodes.countP p := by
  obtain ⟨mn, mm, mpars⟩ := meta
  cases mp with
  | false => rfl
  | true =>
    cases mpars with
    | none => rfl
    | some l =>
      cases l with
      | nil => rfl
      | cons q qs =>
        simp only [resolveDest, recreateFolderPath]
        exact countP_materialize p hp _ _ _

/-- After a successful delete call, the node is gone. -/
theorem lookup_after_delete {a a' : Acct} {ok : Bool} {i : Nat}
    (h : deleteFileCall a ok i = some a') : lookupNode a' i = none := by
  unfold deleteFileCall at h
  split at h
  · cases h
    unfold lookupNode
    rw [List.find?_eq_none]
    intro x hx
    have hne := (List.mem_filter.mp hx).2
    simpa using hne
  · exact absurd h (by simp)

/-- **C2**: for a file (non-folder node) with no collision at the resolved
destination and every remote call succeeding, `moveFileWithPath` reports success,
the target account ends with exactly one *more* node carrying the source file's
name, MIME type and byte content than before, and the source account no longer
contains the original node. -/
theorem moveFileWithPath_success_moves_file (src tgt : Acct)
    (fuel fileId targetFolderId : Nat) (maintainPath : Bool) (fnode : Node)
    (hf : lookupNode src fileId = some fnode)
    (hmime : fnode.mimeType ≠ folderMime)
    (hcoll : hasNameCollision
      (resolveDest src tgt fuel (getMetadata src true fileId) targetFolderId
        maintainPath).2
      fnode.name
      (resolveDest src tgt fuel (getMetadata src true fileId) targetFolderId
        maintainPath).1 = false) :
    (moveFileWithPath src tgt Faults.allOk fuel fileId targetFolderId
        maintainPath).result = .ok () ∧
    (moveFileWithPath src tgt Faults.allOk fuel fileId targetFolderId
        maintainPath).tgt.nodes.countP
      (fun n => n.name == fnode.name && n.mimeType == fnode.mimeType &&
        n.content == fnode.content) =
      tgt.nodes.countP
        (fun n => n.name == fnode.name && n.mimeType == fnode.mimeType &&
          n.content == fnode.content) + 1 ∧
    lookupNode (moveFileWithPath src tgt Faults.allOk fuel fileId targetFolderId
      maintainPath).src fileId = none := by
  have hmeta : getMetadata src true fileId =
      ⟨some fnode.name, some fnode.mimeType, fnode.parent.map (fun p => [p])⟩ := by
    simp [getMetadata, hf]
  have hjs : jsStr (getMetadata src true fileId).name = fnode.name := by
    rw [hmeta]; rfl
  have hu1 : uploadName (getMetadata src true fileId) = fnode.name := by
    rw [hmeta]; rfl
  have hu2 : uploadMime (getMetadata src true fileId) = fnode.mimeType := by
    rw [hmeta]; rfl
  have hdl : downloadContent src true fileId = fnode.content := by
    simp [downloadContent, hf]
  have hdel : deleteFileCall src true fileId =
      some ⟨src.nodes.filter (fun n => n.id != fileId), src.nextId, src.perms⟩ := by
    simp [deleteFileCall, hf]
  have hcoll' : hasNameCollision
      (resolveDest src tgt fuel (getMetadata src true fileId) targetFolderId
        maintainPath).2
      (jsStr (getMetadata src true fileId).name)
      (resolveDest src tgt fuel (getMetadata src true fileId) targetFolderId
        maintainPath).1 = false := by
    rw [hjs]; exact hcoll
  set p : Node → Bool := fun n => n.name == fnode.name &&
    n.mimeType == fnode.mimeType && n.content == fnode.content with hpdef
  have hpfold : ∀ n : Node, n.mimeType = folderMime → p n = false := by
    intro n hn
    have hb : (n.mimeType == fnode.mimeType) = false :=
      beq_eq_false_iff_ne.mpr (fun hEq => hmime (hEq.symm.trans hn))
    simp [hpdef, hb]
  refine ⟨?_, ?_, ?_⟩
  · simp only [moveFileWithPath, Faults.allOk, Bool.and_self, Bool.not_true,
      Bool.false_eq_true, if_false, hcoll', hdel]
  · simp only [moveFileWithPath, Faults.allOk, Bool.and_self, Bool.not_true,
      Bool.false_eq_true, if_false, hcoll', hdel, hdl, hu1, hu2, uploadNode]
    rw [List.countP_append, countP_resolveDest p hpfold]
    simp [hpdef, List.countP_cons]
  · simp only [moveFileWithPath, Faults.allOk, Bool.and_self, Bool.not_true,
      Bool.false_eq_true, if_false, hcoll', hdel]
    exact lookup_after_delete hdel

/-- Witness for the successful-move theorem: `a.txt` moves from `Docs` in the
source into the reused `Docs` of the target shared root. -/
theorem moveFileWithPath_success_moves_file_witness :
    (lookupNode cSrc 2 = some ⟨2, "a.txt", "text/plain", [10, 20], some 1⟩ ∧
      hasNameCollision (resolveDest cSrc cTgt 5 (getMetadata cSrc true 2) 20 true).2
        "a.txt" (resolveDest cSrc cTgt 5 (getMetadata cSrc true 2) 20 true).1 = false) ∧
    (moveFileWithPath cSrc cTgt Faults.allOk 5 2 20 true).result = .ok () ∧
    (moveFileWithPath cSrc cTgt Faults.allOk 5 2 20 true).tgt.nodes.countP
      (fun n => n.name == "a.txt" && n.mimeType == "text/plain" &&
        n.content == [10, 20]) =
      cTgt.nodes.countP
        (fun n => n.name == "a.txt" && n.mimeType == "text/plain" &&
          n.content == [10, 20]) + 1 ∧
    lookupNode (moveFileWithPath cSrc cTgt Faults.allOk 5 2 20 true).src 2 = none := by
  have H := moveFileWithPath_success_moves_file cSrc cTgt 5 2 20 true
    ⟨2, "a.txt", "text/plain", [10, 20], some 1⟩ (by decide) (by decide) (by decide)
  exact ⟨⟨by decide, by decide⟩, H.1, H.2.1, H.2.2⟩

/-! ## Claim theorem for the backup-account selection -/

/-- Unfolds `selectBestBackupAccount` once the sorted positive-free-space list is
known to be nonempty. -/
theorem selectBest_eq_of_sorted {accounts : List BackupAccount} {r : Nat}
    {top : BackupAccount} {restS : List BackupAccount}
    (hne : accounts.isEmpty = false)
    (hs : (accounts.filter (fun a => 0 < freeSpace a)).mergeSort
      (fun a b => freeSpace b ≤ freeSpace a) = top :: restS) :
    selectBestBackupAccount accounts r =
      .ok ((((top :: restS).filter (fun a => freeSpace a == freeSpace top)).getD
        (r % ((top :: restS).filter
          (fun a => freeSpace a == freeSpace top)).length) top).gid) := by
  unfold selectBestBackupAccount
  simp only [hne, Bool.false_eq_true, if_false, hs]

/-- **C8**: over any candidate list (already restricted to active backup
accounts): when some account has strictly positive free space, the selection
returns the id of a candidate whose free space is strictly positive and is the
maximum over the whole list (whatever the random draw `r`); when no candidate
has positive free space (in particular when the list is empty), it fails with an
error. -/
theorem selectBestBackupAccount_max_free (accounts : List BackupAccount) (r : Nat) :
    ((∃ a ∈ accounts, 0 < freeSpace a) →
      ∃ a ∈ accounts, selectBestBackupAccount accounts r = .ok a.gid ∧
        0 < freeSpace a ∧ ∀ b ∈ accounts, freeSpace b ≤ freeSpace a) ∧
    ((∀ a ∈ accounts, freeSpace a ≤ 0) →
      ∃ msg, selectBestBackupAccount accounts r = .error msg) := by
  constructor
  · rintro ⟨a0, ha0, ha0pos⟩
    have hne : accounts.isEmpty = false := by
      cases accounts with
      | nil => cases ha0
      | cons x xs => rfl
    have hperm : ((accounts.filter (fun a => 0 < freeSpace a)).mergeSort
        (fun a b => freeSpace b ≤ freeSpace a)).Perm
        (accounts.filter (fun a => 0 < freeSpace a)) :=
      List.mergeSort_perm _ _
    have ha0f : a0 ∈ accounts.filter (fun a => 0 < freeSpace a) :=
      List.mem_filter.mpr ⟨ha0, by simpa using ha0pos⟩
    cases hs : (accounts.filter (fun a => 0 < freeSpace a)).mergeSort
        (fun a b => freeSpace b ≤ freeSpace a) with
    | nil =>
      exfalso
      rw [hs] at hperm
      rw [hperm.symm.eq_nil] at ha0f
      cases ha0f
    | cons top restS =>
      rw [hs] at hperm
      have htopf : top ∈ accounts.filter (fun a => 0 < freeSpace a) :=
        hperm.mem_iff.mp (List.mem_cons_self _ _)
      have htoppos : 0 < freeSpace top := by
        simpa using (List.mem_filter.mp htopf).2
      have hpw : (top :: restS).Pairwise
          (fun a b => (freeSpace b ≤ freeSpace a : Bool) = true) := by
        rw [← hs]
        exact List.sorted_mergeSort
          (fun a b c h1 h2 => by
            simp only [decide_eq_true_eq] at h1 h2 ⊢
            exact le_trans h2 h1)
          (fun a b => by
            rcases le_total (freeSpace b) (freeSpace a) with h | h <;> simp [h])
          _
      have hmax : ∀ b ∈ accounts, freeSpace b ≤ freeSpace top := by
        intro b hb
        by_cases hbpos : 0 < freeSpace b
        · have hbf : b ∈ accounts.filter (fun a => 0 < freeSpace a) :=
            List.mem_filter.mpr ⟨hb, by simpa using hbpos⟩
          have hbs : b ∈ top :: restS := hperm.mem_iff.mpr hbf
          rcases List.mem_cons.mp hbs with rfl | hbs'
          · exact le_refl _
          · have := (List.pairwise_cons.mp hpw).1 b hbs'
            simpa using this
        · exact le_trans (Int.not_lt.mp hbpos) (le_of_lt htoppos)
      have hchmem : ((top :: restS).filter
            (fun a => freeSpace a == freeSpace top)).getD
            (r % ((top :: restS).filter
              (fun a => freeSpace a == freeSpace top)).length) top ∈
          (top :: restS).filter (fun a => freeSpace a == freeSpace top) := by
        rw [List.getD_eq_getElem?_getD]
        rcases Nat.lt_or_ge (r % ((top :: restS).filter
            (fun a => freeSpace a == freeSpace top)).length)
            ((top :: restS).filter (fun a => freeSpace a == freeSpace top)).length
          with hlt | hge
        · rw [List.getElem?_eq_getElem hlt]
          exact List.getElem_mem hlt
        · rw [List.getElem?_eq_none hge]
          exact List.mem_filter.mpr ⟨List.mem_cons_self _ _, by simp⟩
      have hcheq : freeSpace (((top :: restS).filter
            (fun a => freeSpace a == freeSpace top)).getD
            (r % ((top :: restS).filter
              (fun a => freeSpace a == freeSpace top)).length) top) =
          freeSpace top := by
        have := (List.mem_filter.mp hchmem).2
        simpa using this
      have hchacc : ((top :: restS).filter
            (fun a => freeSpace a == freeSpace top)).getD
            (r % ((top :: restS).filter
              (fun a => freeSpace a == freeSpace top)).length) top ∈ accounts := by
        have h1 := (List.mem_filter.mp hchmem).1
        have h2 := hperm.mem_iff.mp h1
        exact (List.mem_filter.mp h2).1
      refine ⟨_, hchacc, selectBest_eq_of_sorted hne hs, ?_, ?_⟩
      · rw [hcheq]; exact htoppos
      · intro b hb
        rw [hcheq]; exact hmax b hb
  · intro hall
    cases accounts with
    | nil => exact ⟨"No backup accounts available", rfl⟩
    | cons x xs =>
      have hflt : (x :: xs).filter (fun a => 0 < freeSpace a) = [] := by
        rw [List.filter_eq_nil_iff]
        intro a ha
        simpa using Int.not_lt.mpr (hall a ha)
      refine ⟨"No backup accounts with available storage", ?_⟩
      unfold selectBestBackupAccount
      simp only [List.isEmpty_cons, Bool.false_eq_true, if_false, hflt,
        List.mergeSort_nil]

/-- Witness for the selection theorem: of two backup accounts with free space 60
and 90, the one with 90 is returned. -/
theorem selectBestBackupAccount_max_free_witness :
    (∃ a ∈ [(⟨1, some 100, some 40⟩ : BackupAccount), ⟨2, some 100, some 10⟩],
      0 < freeSpace a) ∧
    (∃ a ∈ [(⟨1, some 100, some 40⟩ : BackupAccount), ⟨2, some 100, some 10⟩],
      selectBestBackupAccount
        [⟨1, some 100, some 40⟩, ⟨2, some 100, some 10⟩] 0 = .ok a.gid ∧
      0 < freeSpace a ∧
      ∀ b ∈ [(⟨1, some 100, some 40⟩ : BackupAccount), ⟨2, some 100, some 10⟩],
        freeSpace b ≤ freeSpace a) :=
  ⟨by decide,
    (selectBestBackupAccount_max_free
      [⟨1, some 100, some 40⟩, ⟨2, some 100, some 10⟩] 0).1 (by decide)⟩

/-! ## Claim theorem for the auto-relieve routine -/

/-- **C9**: below the 10%-of-total free-space threshold (modelled as the exact
rational comparison `10 * free < total`; the source computes `total * 0.1` in
binary floating point), the routine attempts — failures swallowed, with
`maintainPath = true` on every call — exactly the first five files of a
descending-size ordering of the account's positive-size files; at or above the
threshold it attempts nothing; and which files are attempted never depends on the
per-move outcomes. -/
theorem checkStorageAndAutoMove_top5_threshold (total used : Option Int)
    (files : List SizedFile) (ok : Nat → Bool) :
    (10 * (total.getD 0 - used.getD 0) < total.getD 0 →
      ∃ sorted : List SizedFile,
        sorted.Perm (files.filter (fun fi => 0 < fi.size)) ∧
        sorted.Pairwise (fun a b => b.size ≤ a.size) ∧
        checkStorageAndAutoMove total used files ok =
          (sorted.take 5).map (fun fi => (fi.id, true, ok fi.id))) ∧
    (¬ 10 * (total.getD 0 - used.getD 0) < total.getD 0 →
      checkStorageAndAutoMove total used files ok = []) ∧
    (∀ ok2 : Nat → Bool,
      (checkStorageAndAutoMove total used files ok).map (fun e => e.1) =
        (checkStorageAndAutoMove total used files ok2).map (fun e => e.1)) := by
  refine ⟨?_, ?_, ?_⟩
  · intro hlt
    refine ⟨(files.filter (fun fi => 0 < fi.size)).mergeSort
        (fun a b => b.size ≤ a.size),
      List.mergeSort_perm _ _, ?_, ?_⟩
    · have hpw := @List.sorted_mergeSort SizedFile
        (fun a b : SizedFile => (b.size ≤ a.size : Bool))
        (fun a b c h1 h2 => by
          simp only [decide_eq_true_eq] at h1 h2 ⊢
          exact le_trans h2 h1)
        (fun a b => by
          rcases le_total b.size a.size with h | h <;> simp [h])
        (files.filter (fun fi => 0 < fi.size))
      exact hpw.imp (fun h => by simpa using h)
    · simp only [checkStorageAndAutoMove, getLargestFiles, if_pos hlt]
  · intro hge
    simp [checkStorageAndAutoMove, hge]
  · intro ok2
    by_cases h : 10 * (total.getD 0 - used.getD 0) < total.getD 0 <;>
      simp [checkStorageAndAutoMove, h]

/-- Witness for the auto-relieve theorem: at 5% free space, the five largest of
six positive-size files (sizes 9, 8, 7, 5, 2) are attempted; the zero-size file
is excluded. -/
theorem checkStorageAndAutoMove_top5_threshold_witness :
    (10 * ((some 100 : Option Int).getD 0 - (some 95 : Option Int).getD 0) <
      (some 100 : Option Int).getD 0) ∧
    (∃ sorted : List SizedFile,
      sorted.Perm (([⟨1, 5⟩, ⟨2, 9⟩, ⟨3, 0⟩, ⟨4, 7⟩, ⟨5, 1⟩, ⟨6, 2⟩, ⟨7, 8⟩] :
        List SizedFile).filter (fun fi => 0 < fi.size)) ∧
      sorted.Pairwise (fun a b => b.size ≤ a.size) ∧
      checkStorageAndAutoMove (some 100) (some 95)
        [⟨1, 5⟩, ⟨2, 9⟩, ⟨3, 0⟩, ⟨4, 7⟩, ⟨5, 1⟩, ⟨6, 2⟩, ⟨7, 8⟩] (fun _ => true) =
        (sorted.take 5).map (fun fi => (fi.id, true, true))) :=
  ⟨by decide,
    (checkStorageAndAutoMove_top5_threshold (some 100) (some 95)
      [⟨1, 5⟩, ⟨2, 9⟩, ⟨3, 0⟩, ⟨4, 7⟩, ⟨5, 1⟩, ⟨6, 2⟩, ⟨7, 8⟩] (fun _ => true)).1
      (by decide)⟩

end DriveVault
